import Mathlib

/-!
Shallow embedding of the volume_tracker repository (src/auth.py,
src/deduplicate_json.py, src/scrape.py, src/scrape_date_range.py) and proofs
about the claims of the specification.

Python values that occur in the records handled by this program (JSON scalars,
dictionaries) are modelled by `PyVal` and `Rec`.  Python numeric equality
collapses int and float (`0 == 0.0`), so a single rational constructor models
both numeric types; `PyVal.null` models Python `None`.
-/

/-- Model of the Python scalar values occurring in trade / depth-chart records.
A single rational constructor covers both `int` and `float`, matching Python's
cross-type numeric equality used in tuple comparison. -/
inductive PyVal where
  | str (s : String)
  | num (q : ℚ)
  | null
deriving DecidableEq, Repr

/-- A Python dict (JSON object) with string keys, as an association list.
Dicts produced by `json.load` and by the scrapers have pairwise distinct keys;
lookup takes the first match. -/
def Rec := List (String × PyVal)
deriving DecidableEq, Repr

/-- First-match lookup, modelling `d[k]` / `k in d` on a Python dict. -/
def recFind (r : Rec) (k : String) : Option PyVal :=
  match r with
  | [] => none
  | (k', v) :: rest => if k = k' then some v else recFind rest k

/-- Models `d.get(k, default)` on a Python dict. -/
def pyGet (r : Rec) (k : String) (d : PyVal) : PyVal :=
  (recFind r k).getD d

/-- Models `k in d` on a Python dict. -/
def hasKey (r : Rec) (k : String) : Bool :=
  (recFind r k).isSome

/-! ### String primitives (models of the Python `str` methods used) -/

/-- Models Python `s.lower()` (ASCII fragment, which covers every header and
placeholder string this program compares). -/
def pyLower (s : String) : String := ⟨s.data.map Char.toLower⟩

/-- Models Python `s.upper()` (ASCII fragment). -/
def pyUpper (s : String) : String := ⟨s.data.map Char.toUpper⟩

/-- Models Python `s.strip()`: drop leading and trailing whitespace. -/
def pyStrip (s : String) : String :=
  ⟨((s.data.dropWhile Char.isWhitespace).reverse.dropWhile Char.isWhitespace).reverse⟩

/-- Models Python `s.replace(c, '')`: remove every occurrence of one character. -/
def pyRemove (s : String) (c : Char) : String := ⟨s.data.filter (· ≠ c)⟩

/-- `lcStarts n h` holds when char list `n` is an initial segment of `h`. -/
def lcStarts (n h : List Char) : Bool :=
  match n with
  | [] => true
  | a :: as =>
    match h with
    | [] => false
    | b :: bs => a == b && lcStarts as bs

/-- `lcHas n h` models Python `n in h` on strings: `n` occurs contiguously in `h`. -/
def lcHas (n : List Char) : List Char → Bool
  | [] => n.isEmpty
  | c :: rest => lcStarts n (c :: rest) || lcHas n rest

/-- Models the Python substring test `sub in hay`. -/
def strHas (hay sub : String) : Bool := lcHas sub.data hay.data

/-! ### Numeric parsing (decimal fragment of Python `float()` / `int()`)

`float()` and `int()` strip surrounding whitespace and accept an optional
sign; `float()` additionally accepts a decimal point.  The exotic parts of the
Python grammar (exponents, `inf`, `nan`, digit underscores) never arise in the
cells these claims are about and are outside this fragment; every string the
fragment accepts is accepted by Python with the same value. -/

def digitsVal (cs : List Char) : ℕ :=
  cs.foldl (fun a c => a * 10 + (c.toNat - 48)) 0

def allDigits (cs : List Char) : Bool := cs.all Char.isDigit

def pow10 : ℕ → ℕ
  | 0 => 1
  | n + 1 => 10 * pow10 n

/-- Unsigned decimal: `digits`, `digits.digits`, `digits.`, `.digits`.  The
value `intpart + fracpart / 10 ^ len` is built as one exact rational. -/
def decCore (cs : List Char) : Option ℚ :=
  match cs.splitOn '.' with
  | [ip] =>
    if ip ≠ [] ∧ allDigits ip then some (digitsVal ip) else none
  | [ip, fp] =>
    if (ip ++ fp) ≠ [] ∧ allDigits ip ∧ allDigits fp then
      some (mkRat (digitsVal ip * pow10 fp.length + digitsVal fp) (pow10 fp.length))
    else none
  | _ => none

/-- Models Python `float(s)` on the decimal fragment, read exactly (ℚ). -/
def pyFloat (s : String) : Option ℚ :=
  match (pyStrip s).data with
  | '+' :: rest => decCore rest
  | '-' :: rest => (decCore rest).map (fun q => -q)
  | cs => decCore cs

def intCore (cs : List Char) : Option ℤ :=
  if cs ≠ [] ∧ allDigits cs then some (digitsVal cs : ℤ) else none

/-- Models Python `int(s)` on the decimal fragment. -/
def pyInt (s : String) : Option ℤ :=
  match (pyStrip s).data with
  | '+' :: rest => intCore rest
  | '-' :: rest => (intCore rest).map (fun n => -n)
  | cs => intCore cs

/-! ### deduplicate_json.py -/

/-- Translation of `get_trade_key` (deduplicate_json.py, lines 12-25):
the identity tuple of a trade, with the source's defaults for absent keys. -/
def get_trade_key (trade : Rec) : List PyVal :=
  [ pyGet trade "date" (.str ""),
    pyGet trade "time_et" (.str ""),
    pyGet trade "exchange" (.str ""),
    pyGet trade "price" (.num 0),
    pyGet trade "volume" (.num 0),
    pyGet trade "buyer" (.str ""),
    pyGet trade "seller" (.str "") ]

/-- Translation of `get_depth_chart_key` (deduplicate_json.py, lines 28-44). -/
def get_depth_chart_key (entry : Rec) : List PyVal :=
  [ pyGet entry "timestamp" (.str ""),
    pyGet entry "price" (.num 0),
    pyGet entry "volume" (.num 0),
    pyGet entry "buyer_broker" (.str ""),
    pyGet entry "seller_broker" (.str ""),
    pyGet entry "bid_price" (.num 0),
    pyGet entry "ask_price" (.num 0),
    pyGet entry "bid_size" (.num 0),
    pyGet entry "ask_size" (.num 0) ]

/-- The first-occurrence filter shared by `deduplicate_trades` and
`deduplicate_depth_chart`: iterate in order, keep a record when its key is not
in `seen`, otherwise drop it (source lines 60-68 and 103-111). -/
def dedupByKey (key : Rec → List PyVal) : List Rec → List (List PyVal) → List Rec
  | [], _ => []
  | t :: ts, seen =>
    if key t ∈ seen then dedupByKey key ts seen
    else t :: dedupByKey key ts (key t :: seen)

/-- The pure dedup pass on a parsed trades array. -/
def dedupTrades (trades : List Rec) : List Rec := dedupByKey get_trade_key trades []

/-- The pure dedup pass on a parsed depth-chart array. -/
def dedupDepth (entries : List Rec) : List Rec := dedupByKey get_depth_chart_key entries []

/-- Result of reading and JSON-parsing a dataset file. -/
inductive FileRead where
  | absent
  | unparseable
  | parsedList (l : List Rec)
  | parsedOther
deriving Repr

/-- Translation of `deduplicate_trades` (deduplicate_json.py, lines 47-87) at the
file level.  Returns the content written back (or `none` when no write is
performed) together with the removed count.  A missing file, a JSON parse
error, and a non-array top level all return `(none, 0)` without writing. -/
def deduplicate_trades (file : FileRead) : Option (List Rec) × ℕ :=
  match file with
  | .parsedList trades =>
    let uniq := dedupTrades trades
    let removed := trades.length - uniq.length
    if removed > 0 then (some uniq, removed) else (none, removed)
  | _ => (none, 0)

/-- Translation of `deduplicate_depth_chart` (deduplicate_json.py, lines 90-130). -/
def deduplicate_depth_chart (file : FileRead) : Option (List Rec) × ℕ :=
  match file with
  | .parsedList entries =>
    let uniq := dedupDepth entries
    let removed := entries.length - uniq.length
    if removed > 0 then (some uniq, removed) else (none, removed)
  | _ => (none, 0)

/-! ### scrape.py — Venue-A (CSE) schema mapper -/

/-- The column map being built by `scrape_cse_trades` (scrape.py, `col_indices`). -/
structure CseColMap where
  timestamp : Option ℕ := none
  buyer : Option ℕ := none
  seller : Option ℕ := none
  price : Option ℕ := none
  bid_price : Option ℕ := none
  ask_price : Option ℕ := none
  volume : Option ℕ := none
  bid_size : Option ℕ := none
  ask_size : Option ℕ := none
  trade_id : Option ℕ := none
deriving DecidableEq, Repr

/-- `header_clean = header.strip().lower()` (scrape.py, line 221). -/
def headerClean (h : String) : String := pyLower (pyStrip h)

/-- One iteration of the header-mapping loop of `scrape_cse_trades`
(scrape.py, lines 220-275), translated branch for branch; the argument `hc` is
the already-cleaned header text (`header.strip().lower()`, line 221). -/
def cseMapStep (m : CseColMap) (idx : ℕ) (hc : String) : CseColMap :=
  if strHas hc "time" || strHas hc "timestamp" then
    { m with timestamp := some idx }
  else if strHas hc "bid broker" then
    { m with buyer := some idx }
  else if strHas hc "ask broker" then
    { m with seller := some idx }
  else if strHas hc "buyer" && strHas hc "broker" then
    { m with buyer := some idx }
  else if strHas hc "seller" && strHas hc "broker" then
    { m with seller := some idx }
  else if strHas hc "price" then
    if strHas hc "bid price" then
      if ({ m with bid_price := some idx } : CseColMap).price.isNone then
        { m with bid_price := some idx, price := some idx }
      else { m with bid_price := some idx }
    else if strHas hc "ask price" then
      if ({ m with ask_price := some idx } : CseColMap).price.isNone then
        { m with ask_price := some idx, price := some idx }
      else { m with ask_price := some idx }
    else if !strHas hc "bid" && !strHas hc "ask" then
      { m with price := some idx }
    else m
  else if strHas hc "volume" || strHas hc "size" then
    if strHas hc "bid size" then
      if ({ m with bid_size := some idx } : CseColMap).volume.isNone then
        { m with bid_size := some idx, volume := some idx }
      else { m with bid_size := some idx }
    else if strHas hc "ask size" then
      if ({ m with ask_size := some idx } : CseColMap).volume.isNone then
        { m with ask_size := some idx, volume := some idx }
      else { m with ask_size := some idx }
    else if !strHas hc "bid" && !strHas hc "ask" then
      { m with volume := some idx }
    else m
  else if strHas hc "trade" && strHas hc "id" then
    { m with trade_id := some idx }
  else m

/-- `if not col_indices` (scrape.py, line 280): the dict is empty. -/
def CseColMap.isEmptyMap (m : CseColMap) : Bool :=
  m.timestamp.isNone && m.buyer.isNone && m.seller.isNone && m.price.isNone &&
  m.bid_price.isNone && m.ask_price.isNone && m.volume.isNone &&
  m.bid_size.isNone && m.ask_size.isNone && m.trade_id.isNone

/-- The default positional map used when no header matched
(scrape.py, lines 280-289). -/
def cseDefaultMap : CseColMap :=
  { timestamp := some 0, price := some 1, volume := some 2,
    buyer := some 3, seller := some 4 }

/-- The header-to-column mapping of `scrape_cse_trades`: headers are extracted
lowercased and stripped (line 205), then the mapping loop runs over them with
their indices; if nothing was assigned, the default positional map is used. -/
def mapColumnsCSE (headers : List String) : CseColMap :=
  let extracted := headers.map (fun h => pyLower (pyStrip h))
  let m := extracted.enum.foldl (fun m p => cseMapStep m p.1 (headerClean p.2)) {}
  if m.isEmptyMap then cseDefaultMap else m

/-! ### scrape.py — Venue-B (Stockwatch) row extraction -/

/-- The Stockwatch `col_indices` dict (scrape.py, lines 761-779). -/
structure SwColMap where
  time_et : Option ℕ := none
  exchange : Option ℕ := none
  price : Option ℕ := none
  change : Option ℕ := none
  volume : Option ℕ := none
  buyer : Option ℕ := none
  seller : Option ℕ := none
  markers : Option ℕ := none
deriving DecidableEq, Repr

/-- A Stockwatch trade dict as built by the row loop.  An outer `none` models
an absent key; `some none` models a key whose value is Python `None`. -/
structure SwTrade where
  time_et : Option String := none
  exchange : Option String := none
  price : Option (Option ℚ) := none
  change : Option (Option ℚ) := none
  volume : Option (Option ℤ) := none
  buyer : Option String := none
  seller : Option String := none
  markers : Option String := none
  symbol : String
  date : String
deriving DecidableEq, Repr

/-- Guarded cell access `col < len(cells)` followed by `get_text(strip=True)`. -/
def getField (cells : List String) (ci : Option ℕ) : Option String :=
  ci.bind fun i => if i < cells.length then some (pyStrip (cells.getD i "")) else none

/-- Price coercion (scrape.py, lines 812-817): strip `$`, `,`, whitespace, then
`float`; failure yields null. -/
def coercePriceCell (s : String) : Option ℚ :=
  pyFloat (pyStrip (pyRemove (pyRemove s '$') ','))

/-- Change coercion (scrape.py, lines 821-826): additionally strip `+`. -/
def coerceChangeCell (s : String) : Option ℚ :=
  pyFloat (pyStrip (pyRemove (pyRemove (pyRemove s '$') ',') '+'))

/-- Volume coercion (scrape.py, lines 830-835): strip `,` then `int`. -/
def coerceVolumeCell (s : String) : Option ℤ :=
  pyInt (pyStrip (pyRemove s ','))

/-- `some (some _)` test: Python `d.get(k) is not None`. -/
def isSomeSome {α : Type} : Option (Option α) → Bool
  | some (some _) => true
  | _ => false

/-- Translation of one iteration of the Stockwatch row loop (scrape.py, lines
794-855): rows with fewer than 3 cells are skipped; each mapped, in-range
column contributes a field; the record is decorated with the uppercased symbol
and the requested date, and kept only when price or volume is non-null. -/
def parseSwRow (ci : SwColMap) (symbol date : String) (cells : List String) :
    Option SwTrade :=
  if cells.length < 3 then none
  else
    let t : SwTrade :=
      { time_et := getField cells ci.time_et
        exchange := getField cells ci.exchange
        price := (getField cells ci.price).map coercePriceCell
        change := (getField cells ci.change).map coerceChangeCell
        volume := (getField cells ci.volume).map coerceVolumeCell
        buyer := getField cells ci.buyer
        seller := getField cells ci.seller
        markers := getField cells ci.markers
        symbol := pyUpper symbol
        date := date }
    if isSomeSome t.price || isSomeSome t.volume then some t else none

/-- The Stockwatch table body loop over all rows. -/
def scrape_stockwatch_rows (ci : SwColMap) (symbol date : String)
    (rows : List (List String)) : List SwTrade :=
  rows.filterMap (parseSwRow ci symbol date)

/-! ### scrape.py — Store (JSON and CSV writers) -/

/-- Translation of `save_to_json` (scrape.py, lines 912-941).  Returns the array
written back to the file, or `none` when no write happens (the only such case:
the existing file parses to a non-list, so the `+` concatenation raises and the
outer handler logs without writing).  A missing or unparseable file starts from
the empty array.  All error paths return normally: nothing raises to the
caller. -/
def save_to_json (trades : List Rec) (append : Bool) (file : FileRead) :
    Option (List Rec) :=
  let existing : Option (List Rec) :=
    if append then
      match file with
      | .parsedList l => some l
      | .parsedOther => none
      | _ => some []
    else some []
  match existing with
  | some ex => some (ex ++ trades)
  | none => none

/-- Translation of `save_stockwatch_trades` (scrape.py, lines 879-909): same
read-concatenate-write logic with append always on. -/
def save_stockwatch_trades (trades : List Rec) (file : FileRead) :
    Option (List Rec) :=
  let existing : Option (List Rec) :=
    match file with
    | .parsedList l => some l
    | .parsedOther => none
    | _ => some []
  match existing with
  | some ex => some (ex ++ trades)
  | none => none

/-- File-system effect of `save_to_csv`. -/
inductive CsvEffect where
  | noWrite
  | write (appendMode : Bool) (header : Option (List String)) (rows : List Rec)
deriving DecidableEq, Repr

/-- The CSV field-name computation of `save_to_csv` (scrape.py, lines 962-970):
the sorted set of keys observed across all trades, reordered so the preferred
fields come first. -/
def csvFieldnames (trades : List Rec) : List String :=
  let keys := (trades.foldl (fun acc t => acc ++ t.map Prod.fst) []).dedup
  let sortedKeys := keys.mergeSort (fun a b => a ≤ b)
  let preferred := ["timestamp", "price", "volume", "buyer_broker", "seller_broker", "trade_id"]
  preferred.filter (fun f => f ∈ sortedKeys) ++
    sortedKeys.filter (fun f => f ∉ preferred)

/-- Translation of `save_to_csv` (scrape.py, lines 944-982) at the effect
level: an empty trades list returns before touching the file system; otherwise
the file is opened in append mode iff it existed and append was requested, and
a header row is written iff the file is fresh. -/
def save_to_csv (trades : List Rec) (append : Bool) (fileExists : Bool) :
    CsvEffect :=
  if trades.isEmpty then .noWrite
  else
    let file_exists := fileExists && append
    let write_header := !file_exists
    let mode_append := append && file_exists
    .write mode_append (if write_header then some (csvFieldnames trades) else none) trades

/-! ### auth.py — credential provider, and the credential phase of
`scrape_stockwatch_trades` (scrape.py, lines 540-560) -/

/-- A parsed secrets.json top level: a JSON object or anything else. -/
inductive SJson where
  | obj (fields : Rec)
  | other
deriving Repr

/-- State of the secrets.json file on disk. -/
inductive SecretsFile where
  | absent
  | invalidJson
  | json (v : SJson)
deriving Repr

/-- The exceptions `load_stockwatch_auth` can raise. -/
inductive AuthError where
  | fileNotFound
  | jsonDecodeError
  | malformed
deriving DecidableEq, Repr

/-- Python truthiness of `os.getenv(...)`: set and non-empty. -/
def envTruthy : Option String → Bool
  | some s => !(s == "")
  | none => false

/-- Translation of `load_stockwatch_auth` (auth.py, lines 12-81): environment
variables win when both are truthy; otherwise the secrets file must exist,
parse, be an object, and contain both fields; the dict is returned as read,
untrimmed. -/
def load_stockwatch_auth (envU envP : Option String) (secrets : SecretsFile) :
    Except AuthError Rec :=
  if envTruthy envU && envTruthy envP then
    .ok [("username", .str (envU.getD "")), ("password", .str (envP.getD ""))]
  else
    match secrets with
    | .absent => .error .fileNotFound
    | .invalidJson => .error .jsonDecodeError
    | .json .other => .error .malformed
    | .json (.obj fields) =>
      if hasKey fields "username" && hasKey fields "password" then .ok fields
      else .error .malformed

/-- `placeholder_values` (scrape.py, line 548). -/
def placeholder_values : List String := ["your_username_here", "your_password_here", ""]

/-- Errors of the credential phase of `scrape_stockwatch_trades`. -/
inductive SwCredError where
  | auth (e : AuthError)
  | attrError
  | placeholder
deriving DecidableEq, Repr

/-- Translation of the credential phase of `scrape_stockwatch_trades`
(scrape.py, lines 540-560): load the auth dict, take the two values, `strip()`
them (an `AttributeError` results when a value is not a string), and raise on
placeholder or empty credentials.  Everything here runs before
`sync_playwright` is entered at line 562. -/
def stockwatch_credential_phase (envU envP : Option String)
    (secrets : SecretsFile) : Except SwCredError (String × String) :=
  match load_stockwatch_auth envU envP secrets with
  | .error e => .error (.auth e)
  | .ok auth_data =>
    match recFind auth_data "username", recFind auth_data "password" with
    | some (.str u0), some (.str p0) =>
      let u := pyStrip u0
      let p := pyStrip p0
      if u ∈ placeholder_values ∨ p ∈ placeholder_values then .error .placeholder
      else .ok (u, p)
    | _, _ => .error .attrError

/-- Whether `scrape_stockwatch_trades` reaches the browser launch at
scrape.py line 564: only when the credential phase succeeded. -/
def stockwatch_browser_launched (envU envP : Option String)
    (secrets : SecretsFile) : Bool :=
  match stockwatch_credential_phase envU envP secrets with
  | .ok _ => true
  | .error _ => false

/-! ### scrape_date_range.py — date range generation

Python `datetime` values (after a successful `strptime` parse) are modelled by
their proleptic-Gregorian day ordinals: `datetime` comparison is ordinal
comparison and `+ timedelta(days=1)` is ordinal successor, so the loop of
`generate_date_range` is faithfully the loop below. -/

/-- The `BadDate` failure of `generate_date_range`. -/
inductive DateError where
  | badDate
deriving DecidableEq, Repr

/-- The `while current <= end` accumulation loop of `generate_date_range`
(scrape_date_range.py, lines 43-47), on day ordinals. -/
def dateRangeLoop (cur e : ℕ) : List ℕ :=
  if cur ≤ e then cur :: dateRangeLoop (cur + 1) e else []
termination_by e + 1 - cur
decreasing_by omega

/-- Translation of `generate_date_range` (scrape_date_range.py, lines 23-49):
a start date after the end date raises; otherwise the inclusive list of days
from start to end, oldest first. -/
def generate_date_range (start e : ℕ) : Except DateError (List ℕ) :=
  if start > e then .error .badDate
  else .ok (dateRangeLoop start e)

/-! ### Helper lemmas: substring search -/

theorem lcStarts_iff : ∀ (n h : List Char), lcStarts n h = true ↔ ∃ t, h = n ++ t := by
  intro n
  induction n with
  | nil => intro h; simp [lcStarts]
  | cons a as ih =>
    intro h
    cases h with
    | nil => simp [lcStarts]
    | cons b bs =>
      simp only [lcStarts, Bool.and_eq_true, beq_iff_eq]
      constructor
      · rintro ⟨rfl, hs⟩
        obtain ⟨t, rfl⟩ := (ih bs).mp hs
        exact ⟨t, rfl⟩
      · rintro ⟨t, ht⟩
        injection ht with h1 h2
        exact ⟨h1.symm, (ih bs).mpr ⟨t, h2⟩⟩

theorem lcHas_iff : ∀ (h n : List Char), lcHas n h = true ↔ ∃ s t, h = s ++ n ++ t := by
  intro h
  induction h with
  | nil =>
    intro n
    simp only [lcHas, List.isEmpty_iff]
    constructor
    · rintro rfl; exact ⟨[], [], rfl⟩
    · rintro ⟨s, t, hst⟩
      obtain ⟨hsn, ht0⟩ := List.append_eq_nil.mp hst.symm
      obtain ⟨hs0, hn0⟩ := List.append_eq_nil.mp hsn
      exact hn0
  | cons c rest ih =>
    intro n
    simp only [lcHas, Bool.or_eq_true]
    constructor
    · rintro (hs | hh)
      · obtain ⟨t, ht⟩ := (lcStarts_iff n (c :: rest)).mp hs
        exact ⟨[], t, by simpa using ht⟩
      · obtain ⟨s, t, rfl⟩ := (ih n).mp hh
        exact ⟨c :: s, t, rfl⟩
    · rintro ⟨s, t, hst⟩
      cases s with
      | nil =>
        left
        exact (lcStarts_iff n (c :: rest)).mpr ⟨t, by simpa using hst⟩
      | cons s0 ss =>
        right
        injection hst with h1 h2
        exact (ih n).mpr ⟨ss, t, h2⟩

/-- Transitivity of the substring relation behind `strHas`. -/
theorem lcHas_trans {A B C : List Char} (h1 : lcHas B A = true)
    (h2 : lcHas C B = true) : lcHas C A = true := by
  obtain ⟨s, t, rfl⟩ := (lcHas_iff A B).mp h1
  obtain ⟨u, v, rfl⟩ := (lcHas_iff B C).mp h2
  exact (lcHas_iff _ C).mpr ⟨s ++ u, v ++ t, by simp⟩

/-! ### Helper lemmas: the first-occurrence filter -/

theorem dedupByKey_sublist (key : Rec → List PyVal) :
    ∀ (l : List Rec) (seen : List (List PyVal)), (dedupByKey key l seen).Sublist l := by
  intro l
  induction l with
  | nil => intro seen; simp [dedupByKey]
  | cons t ts ih =>
    intro seen
    simp only [dedupByKey]
    split
    · exact (ih seen).cons t
    · exact (ih _).cons₂ t

theorem dedupByKey_spec (key : Rec → List PyVal) :
    ∀ (l : List Rec) (seen : List (List PyVal)) (r : Rec),
      r ∈ dedupByKey key l seen →
      key r ∉ seen ∧ l.find? (fun t => decide (key t = key r)) = some r := by
  intro l
  induction l with
  | nil => intro seen r hr; simp [dedupByKey] at hr
  | cons t ts ih =>
    intro seen r hr
    simp only [dedupByKey] at hr
    by_cases hmem : key t ∈ seen
    · rw [if_pos hmem] at hr
      obtain ⟨hns, hfind⟩ := ih seen r hr
      have hne : ¬(key t = key r) := fun h => hns (h ▸ hmem)
      refine ⟨hns, ?_⟩
      rw [List.find?_cons_of_neg _ (by simpa using hne)]
      exact hfind
    · rw [if_neg hmem] at hr
      rcases List.mem_cons.mp hr with rfl | hr'
      · exact ⟨hmem, List.find?_cons_of_pos _ (by simp)⟩
      · obtain ⟨hns, hfind⟩ := ih _ r hr'
        have hne : ¬(key t = key r) := fun h => hns (by simp [h])
        refine ⟨fun hc => hns (List.mem_cons_of_mem _ hc), ?_⟩
        rw [List.find?_cons_of_neg _ (by simpa using hne)]
        exact hfind

theorem dedupByKey_covers (key : Rec → List PyVal) :
    ∀ (l : List Rec) (seen : List (List PyVal)) (r : Rec), r ∈ l →
      key r ∈ seen ∨ key r ∈ (dedupByKey key l seen).map key := by
  intro l
  induction l with
  | nil => intro seen r hr; simp at hr
  | cons t ts ih =>
    intro seen r hr
    simp only [dedupByKey]
    rcases List.mem_cons.mp hr with rfl | hr'
    · by_cases hmem : key r ∈ seen
      · exact Or.inl hmem
      · rw [if_neg hmem]
        exact Or.inr (by simp)
    · by_cases hmem : key t ∈ seen
      · rw [if_pos hmem]
        exact ih seen r hr'
      · rw [if_neg hmem]
        rcases ih (key t :: seen) r hr' with h | h
        · rcases List.mem_cons.mp h with h' | h'
          · exact Or.inr (by simp [h'])
          · exact Or.inl h'
        · exact Or.inr (by simp [h])

theorem dedupByKey_nodup (key : Rec → List PyVal) :
    ∀ (l : List Rec) (seen : List (List PyVal)),
      ((dedupByKey key l seen).map key).Nodup := by
  intro l
  induction l with
  | nil => intro seen; simp [dedupByKey]
  | cons t ts ih =>
    intro seen
    simp only [dedupByKey]
    split
    · exact ih seen
    · simp only [List.map_cons, List.nodup_cons]
      constructor
      · intro hc
        obtain ⟨r, hr, hkr⟩ := List.mem_map.mp hc
        exact (dedupByKey_spec key ts _ r hr).1 (by simp [hkr])
      · exact ih _

theorem dedupByKey_of_nodup (key : Rec → List PyVal) :
    ∀ (l : List Rec) (seen : List (List PyVal)),
      (l.map key).Nodup → (∀ r ∈ l, key r ∉ seen) → dedupByKey key l seen = l := by
  intro l
  induction l with
  | nil => intro seen _ _; simp [dedupByKey]
  | cons t ts ih =>
    intro seen hnd hs
    have hnd' : (∀ x ∈ ts, ¬key x = key t) ∧ (List.map key ts).Nodup := by
      simpa using hnd
    simp only [dedupByKey]
    rw [if_neg (hs t (by simp))]
    congr 1
    apply ih
    · exact hnd'.2
    · intro r hr
      simp only [List.mem_cons]
      rintro (h | h)
      · exact hnd'.1 r hr h
      · exact hs r (List.mem_cons_of_mem _ hr) h

/-- A pass over an already-deduplicated list changes nothing. -/
theorem dedupByKey_self (key : Rec → List PyVal) (l : List Rec) :
    dedupByKey key (dedupByKey key l []) [] = dedupByKey key l [] :=
  dedupByKey_of_nodup key _ [] (dedupByKey_nodup key l []) (by simp)

/-! ### Helper lemmas: date range loop -/

theorem dateRangeLoop_len : ∀ (k cur : ℕ), (dateRangeLoop cur (cur + k)).length = k + 1 := by
  intro k
  induction k with
  | zero =>
    intro cur
    rw [dateRangeLoop, if_pos (by omega), dateRangeLoop, if_neg (by omega)]
    rfl
  | succ k ih =>
    intro cur
    rw [dateRangeLoop, if_pos (by omega), List.length_cons,
      show cur + (k + 1) = (cur + 1) + k by omega, ih (cur + 1)]

theorem dateRangeLoop_mem_ge : ∀ (k cur x : ℕ), x ∈ dateRangeLoop cur (cur + k) → cur ≤ x := by
  intro k
  induction k with
  | zero =>
    intro cur x hx
    rw [dateRangeLoop, if_pos (by omega), dateRangeLoop, if_neg (by omega)] at hx
    simp at hx
    omega
  | succ k ih =>
    intro cur x hx
    rw [dateRangeLoop, if_pos (by omega),
      show cur + (k + 1) = (cur + 1) + k by omega] at hx
    rcases List.mem_cons.mp hx with rfl | hx'
    · omega
    · have := ih (cur + 1) x hx'
      omega

theorem dateRangeLoop_sorted : ∀ (k cur : ℕ), List.Sorted (· < ·) (dateRangeLoop cur (cur + k)) := by
  intro k
  induction k with
  | zero =>
    intro cur
    rw [dateRangeLoop, if_pos (by omega), dateRangeLoop, if_neg (by omega)]
    simp
  | succ k ih =>
    intro cur
    rw [dateRangeLoop, if_pos (by omega),
      show cur + (k + 1) = (cur + 1) + k by omega]
    refine List.sorted_cons.mpr ⟨?_, ih (cur + 1)⟩
    intro b hb
    have := dateRangeLoop_mem_ge k (cur + 1) b hb
    omega

theorem dateRangeLoop_refl (d : ℕ) : dateRangeLoop d d = [d] := by
  rw [dateRangeLoop, if_pos le_rfl, dateRangeLoop, if_neg (by omega)]

/-! ### Helper lemmas: record lookup -/

theorem pyGet_cons_eq (k : String) (v d : PyVal) (r : Rec) :
    pyGet ((k, v) :: r) k d = v := by
  simp [pyGet, recFind]

theorem pyGet_cons_ne (k k' : String) (v d : PyVal) (r : Rec) (h : ¬k = k') :
    pyGet ((k', v) :: r) k d = pyGet r k d := by
  simp [pyGet, recFind, h]

theorem pyGet_of_absent (r : Rec) (k : String) (d : PyVal) (h : hasKey r k = false) :
    pyGet r k d = d := by
  unfold hasKey at h
  unfold pyGet
  cases hf : recFind r k with
  | none => rfl
  | some v => rw [hf] at h; simp at h

/-! ### Claim theorems -/

/-- Glue lemma: the file content after one pass is the deduplicated array
whether or not a write occurred. -/
theorem dedupRun_getD (key : Rec → List PyVal) (l : List Rec) :
    ((if l.length - (dedupByKey key l []).length > 0
        then (some (dedupByKey key l []), l.length - (dedupByKey key l []).length)
        else ((none : Option (List Rec)), l.length - (dedupByKey key l []).length)).1.getD l)
      = dedupByKey key l [] := by
  split
  · simp
  · rename_i h
    have hle := (dedupByKey_sublist key l []).length_le
    have hlen : (dedupByKey key l []).length = l.length := by omega
    simpa using ((dedupByKey_sublist key l []).eq_of_length hlen).symm

/-- Glue lemma: a pass over an already-deduplicated array removes nothing and
performs no write. -/
theorem dedupRun_second (key : Rec → List PyVal) (m : List Rec)
    (hm : dedupByKey key m [] = m) :
    (let uniq := dedupByKey key m []
     let removed := m.length - uniq.length
     if removed > 0 then ((some uniq : Option (List Rec)), removed) else (none, removed))
      = (none, 0) := by
  simp [hm]

/-- C1: the deduplicator is idempotent.  For every file content that parses as
a JSON array `l`, the array on disk after one pass of `deduplicate_trades`
(resp. `deduplicate_depth_chart`) is `dedupTrades l` (resp. `dedupDepth l`),
and a second pass over it removes zero records and performs no write (result
`(none, 0)`: no content written), so `dedup (dedup F) = dedup F`. -/
theorem dedup_idempotent :
    ∀ l : List Rec,
      ((deduplicate_trades (.parsedList l)).1.getD l = dedupTrades l
        ∧ deduplicate_trades
            (.parsedList ((deduplicate_trades (.parsedList l)).1.getD l)) = (none, 0)
        ∧ dedupTrades (dedupTrades l) = dedupTrades l)
      ∧ ((deduplicate_depth_chart (.parsedList l)).1.getD l = dedupDepth l
        ∧ deduplicate_depth_chart
            (.parsedList ((deduplicate_depth_chart (.parsedList l)).1.getD l)) = (none, 0)
        ∧ dedupDepth (dedupDepth l) = dedupDepth l) := by
  intro l
  have ht1 : (deduplicate_trades (.parsedList l)).1.getD l = dedupTrades l :=
    dedupRun_getD get_trade_key l
  have hd1 : (deduplicate_depth_chart (.parsedList l)).1.getD l = dedupDepth l :=
    dedupRun_getD get_depth_chart_key l
  refine ⟨⟨ht1, ?_, dedupByKey_self get_trade_key l⟩,
          ⟨hd1, ?_, dedupByKey_self get_depth_chart_key l⟩⟩
  · rw [ht1]
    exact dedupRun_second get_trade_key (dedupTrades l) (dedupByKey_self get_trade_key l)
  · rw [hd1]
    exact dedupRun_second get_depth_chart_key (dedupDepth l) (dedupByKey_self get_depth_chart_key l)

/-- C3: a Store append writes back exactly `existing ++ new`, preserving the
order of the existing array and the caller's order of the new records; an
unparseable or missing existing file starts from the empty array.  Both
writers are total functions of the read outcome: every error path returns
normally, so nothing raises to the caller. -/
theorem store_append_spec :
    ∀ (A R : List Rec),
      save_to_json R true (.parsedList A) = some (A ++ R)
      ∧ save_to_json R true .unparseable = some R
      ∧ save_to_json R true .absent = some R
      ∧ save_stockwatch_trades R (.parsedList A) = some (A ++ R)
      ∧ save_stockwatch_trades R .unparseable = some R := by
  intro A R
  exact ⟨rfl, rfl, rfl, rfl, rfl⟩

/-- C4: the deduplicator keeps exactly the first occurrence of each identity
tuple, in first-seen order: the output is a subsequence of the input, its keys
are pairwise distinct, every input key is represented, and each kept record is
the first record of the input with its key; in particular
`[x, y, x', z]` with `id x' = id x` yields `[x, y, z]`. -/
theorem dedup_first_seen (x y x' z : Rec)
    (h1 : get_trade_key x' = get_trade_key x)
    (h2 : get_trade_key y ≠ get_trade_key x)
    (h3 : get_trade_key z ≠ get_trade_key x)
    (h4 : get_trade_key z ≠ get_trade_key y) :
    dedupTrades [x, y, x', z] = [x, y, z]
    ∧ ∀ l : List Rec,
        (dedupTrades l).Sublist l
        ∧ ((dedupTrades l).map get_trade_key).Nodup
        ∧ (∀ r ∈ l, get_trade_key r ∈ (dedupTrades l).map get_trade_key)
        ∧ (∀ r ∈ dedupTrades l,
            l.find? (fun t => decide (get_trade_key t = get_trade_key r)) = some r) := by
  constructor
  · simp [dedupTrades, dedupByKey, h1, h2, h3, h4]
  · intro l
    refine ⟨dedupByKey_sublist get_trade_key l [],
            dedupByKey_nodup get_trade_key l [], ?_, ?_⟩
    · intro r hr
      have := dedupByKey_covers get_trade_key l [] r hr
      simpa using this
    · intro r hr
      exact (dedupByKey_spec get_trade_key l [] r hr).2

/-- Witness for C4 at concrete records: the third record repeats the first
record's identity tuple and is dropped. -/
theorem dedup_first_seen_witness :
    dedupTrades [[("price", PyVal.num 1)], [("price", PyVal.num 2)],
        [("price", PyVal.num 1), ("symbol", PyVal.str "X")], [("price", PyVal.num 3)]]
      = [[("price", PyVal.num 1)], [("price", PyVal.num 2)], [("price", PyVal.num 3)]] :=
  (dedup_first_seen _ _ _ _ (by decide) (by decide) (by decide) (by decide)).1

/-- C5: `generate_date_range` on day ordinals: the inclusive range from `d` to
`d + k - 1` (with `k ≥ 1`) has exactly `k` dates in strictly increasing
(oldest-first) order; the one-day range is `[d]`; and a start date strictly
after the end date yields the `BadDate` failure. -/
theorem generate_date_range_spec (d k : ℕ) (hk : 1 ≤ k) :
    generate_date_range d (d + k - 1) = .ok (dateRangeLoop d (d + k - 1))
    ∧ (dateRangeLoop d (d + k - 1)).length = k
    ∧ List.Sorted (· < ·) (dateRangeLoop d (d + k - 1))
    ∧ generate_date_range d d = .ok [d]
    ∧ ∀ d1 d2 : ℕ, d2 < d1 → generate_date_range d1 d2 = .error .badDate := by
  have e1 : d + k - 1 = d + (k - 1) := by omega
  refine ⟨?_, ?_, ?_, ?_, ?_⟩
  · unfold generate_date_range
    rw [if_neg (by omega)]
  · rw [e1, dateRangeLoop_len (k - 1) d]
    omega
  · rw [e1]
    exact dateRangeLoop_sorted (k - 1) d
  · unfold generate_date_range
    rw [if_neg (by omega), dateRangeLoop_refl]
  · intro d1 d2 h
    unfold generate_date_range
    rw [if_pos (by omega)]

/-- Witness for C5 at `d = 5`, `k = 3`: length and the singleton range. -/
theorem generate_date_range_spec_witness :
    (dateRangeLoop 5 (5 + 3 - 1)).length = 3
    ∧ generate_date_range 5 5 = .ok [5] :=
  ⟨(generate_date_range_spec 5 3 (by decide)).2.1,
   (generate_date_range_spec 5 3 (by decide)).2.2.2.1⟩

/-- C10: saving an empty record list to CSV is a no-op: for every append flag
and every prior state of the file, `save_to_csv` returns before touching the
file system — no file is created, nothing is written, no header is emitted. -/
theorem save_to_csv_empty_noop :
    ∀ (append fileExists : Bool), save_to_csv [] append fileExists = .noWrite := by
  intro a f
  rfl

/-- C2 counterexample: for headers `["Bid Price", "Price", "Ask Price"]` the
resulting `price` column is NOT index 0 — the plain `Price` header at index 1
overwrites the assignment derived from `Bid Price` at index 0. -/
theorem cse_price_counterexample :
    (mapColumnsCSE ["Bid Price", "Price", "Ask Price"]).price ≠ some 0 := by
  decide

/-- C2 amended: only the bid/ask-derived price assignments are guarded against
overwriting an earlier `price` assignment; a plain price header assigns
unconditionally.  For headers `["Bid Price", "Price", "Ask Price"]` the map
assigns `price` to index 1 (with `bid_price` 0 and `ask_price` 2), and in
general a header containing "bid price" or "ask price" never changes an
already-assigned `price`. -/
theorem cse_price_mapping :
    (mapColumnsCSE ["Bid Price", "Price", "Ask Price"]).price = some 1
    ∧ (mapColumnsCSE ["Bid Price", "Price", "Ask Price"]).bid_price = some 0
    ∧ (mapColumnsCSE ["Bid Price", "Price", "Ask Price"]).ask_price = some 2
    ∧ ∀ (m : CseColMap) (idx j : ℕ) (hc : String),
        m.price = some j →
        (strHas hc "bid price" = true ∨ strHas hc "ask price" = true) →
        (cseMapStep m idx hc).price = some j := by
  refine ⟨by decide, by decide, by decide, ?_⟩
  intro m idx j hc hp hba
  unfold cseMapStep
  by_cases h1 : (strHas hc "time" || strHas hc "timestamp") = true
  · rw [if_pos h1]; exact hp
  rw [if_neg h1]
  by_cases h2 : strHas hc "bid broker" = true
  · rw [if_pos h2]; exact hp
  rw [if_neg h2]
  by_cases h3 : strHas hc "ask broker" = true
  · rw [if_pos h3]; exact hp
  rw [if_neg h3]
  by_cases h4 : (strHas hc "buyer" && strHas hc "broker") = true
  · rw [if_pos h4]; exact hp
  rw [if_neg h4]
  by_cases h5 : (strHas hc "seller" && strHas hc "broker") = true
  · rw [if_pos h5]; exact hp
  rw [if_neg h5]
  by_cases h6 : strHas hc "price" = true
  · rw [if_pos h6]
    by_cases h7 : strHas hc "bid price" = true
    · rw [if_pos h7,
        show ({ m with bid_price := some idx } : CseColMap).price = m.price from rfl, hp,
        if_neg (by simp)]
    rw [if_neg h7]
    by_cases h8 : strHas hc "ask price" = true
    · rw [if_pos h8,
        show ({ m with ask_price := some idx } : CseColMap).price = m.price from rfl, hp,
        if_neg (by simp)]
    rw [if_neg h8]
    by_cases h9 : (!strHas hc "bid" && !strHas hc "ask") = true
    · exfalso
      simp only [Bool.and_eq_true, Bool.not_eq_true'] at h9
      rcases hba with hb | ha
      · have hbid : strHas hc "bid" = true :=
          lcHas_trans hb (by decide : lcHas "bid".data "bid price".data = true)
        rw [h9.1] at hbid
        exact Bool.false_ne_true hbid
      · have hask : strHas hc "ask" = true :=
          lcHas_trans ha (by decide : lcHas "ask".data "ask price".data = true)
        rw [h9.2] at hask
        exact Bool.false_ne_true hask
    · rw [if_neg h9]; exact hp
  rw [if_neg h6]
  by_cases h10 : (strHas hc "volume" || strHas hc "size") = true
  · rw [if_pos h10]
    by_cases h11 : strHas hc "bid size" = true
    · rw [if_pos h11]
      by_cases h12 : ({ m with bid_size := some idx } : CseColMap).volume.isNone = true
      · rw [if_pos h12]; exact hp
      · rw [if_neg h12]; exact hp
    rw [if_neg h11]
    by_cases h13 : strHas hc "ask size" = true
    · rw [if_pos h13]
      by_cases h14 : ({ m with ask_size := some idx } : CseColMap).volume.isNone = true
      · rw [if_pos h14]; exact hp
      · rw [if_neg h14]; exact hp
    rw [if_neg h13]
    by_cases h15 : (!strHas hc "bid" && !strHas hc "ask") = true
    · rw [if_pos h15]; exact hp
    · rw [if_neg h15]; exact hp
  rw [if_neg h10]
  by_cases h16 : (strHas hc "trade" && strHas hc "id") = true
  · rw [if_pos h16]; exact hp
  · rw [if_neg h16]; exact hp

/-- Witness for C2: the concrete mapping, and the guarded step at a map whose
`price` is already assigned. -/
theorem cse_price_mapping_witness :
    (mapColumnsCSE ["Bid Price", "Price", "Ask Price"]).price = some 1
    ∧ (cseMapStep { price := some 7 } 9 "bid price").price = some 7 :=
  ⟨cse_price_mapping.1,
   cse_price_mapping.2.2.2 { price := some 7 } 9 7 "bid price" rfl (Or.inl (by decide))⟩

/-- C6: the credential phase of `scrape_stockwatch_trades`.  Whenever the
loader yields a dict with string credentials, the pair used downstream is the
whitespace-trimmed pair; and whenever either trimmed value is empty or equals
a known placeholder string, the phase raises the placeholder error, so the
browser is never launched. -/
theorem credential_phase_spec :
    (∀ (envU envP : Option String) (secrets : SecretsFile) (d : Rec) (u0 p0 : String),
        load_stockwatch_auth envU envP secrets = .ok d →
        recFind d "username" = some (.str u0) →
        recFind d "password" = some (.str p0) →
        pyStrip u0 ∉ placeholder_values →
        pyStrip p0 ∉ placeholder_values →
        stockwatch_credential_phase envU envP secrets = .ok (pyStrip u0, pyStrip p0))
    ∧ (∀ (envU envP : Option String) (secrets : SecretsFile) (d : Rec) (u0 p0 : String),
        load_stockwatch_auth envU envP secrets = .ok d →
        recFind d "username" = some (.str u0) →
        recFind d "password" = some (.str p0) →
        (pyStrip u0 ∈ placeholder_values ∨ pyStrip p0 ∈ placeholder_values) →
        stockwatch_credential_phase envU envP secrets = .error .placeholder
          ∧ stockwatch_browser_launched envU envP secrets = false) := by
  constructor
  · intro envU envP secrets d u0 p0 hload hu hp hnu hnp
    unfold stockwatch_credential_phase
    rw [hload]
    dsimp only
    rw [hu, hp]
    dsimp only
    rw [if_neg (fun hc => hc.elim hnu hnp)]
  · intro envU envP secrets d u0 p0 hload hu hp hor
    have hph : stockwatch_credential_phase envU envP secrets = .error .placeholder := by
      unfold stockwatch_credential_phase
      rw [hload]
      dsimp only
      rw [hu, hp]
      dsimp only
      rw [if_pos hor]
    refine ⟨hph, ?_⟩
    unfold stockwatch_browser_launched
    rw [hph]

/-- Witness for C6: untrimmed credentials come back trimmed, and an empty
password in the secrets file stops the run before any browser is launched. -/
theorem credential_phase_witness :
    stockwatch_credential_phase none none
        (.json (.obj [("username", .str " alice "), ("password", .str " hunter2 ")]))
      = .ok ("alice", "hunter2")
    ∧ stockwatch_credential_phase none none
        (.json (.obj [("username", .str "alice"), ("password", .str "")]))
      = .error .placeholder
    ∧ stockwatch_browser_launched none none
        (.json (.obj [("username", .str "alice"), ("password", .str "")])) = false :=
  ⟨credential_phase_spec.1 none none
      (.json (.obj [("username", .str " alice "), ("password", .str " hunter2 ")]))
      [("username", .str " alice "), ("password", .str " hunter2 ")]
      " alice " " hunter2 " rfl rfl rfl (by decide) (by decide),
   (credential_phase_spec.2 none none
      (.json (.obj [("username", .str "alice"), ("password", .str "")]))
      [("username", .str "alice"), ("password", .str "")]
      "alice" "" rfl rfl rfl (Or.inr (by decide))).1,
   (credential_phase_spec.2 none none
      (.json (.obj [("username", .str "alice"), ("password", .str "")]))
      [("username", .str "alice"), ("password", .str "")]
      "alice" "" rfl rfl rfl (Or.inr (by decide))).2⟩

/-- C7: every trade record returned by the Stockwatch row loop carries the
uppercased requested symbol and the requested date, and has at least one of
price, volume non-null (a row yielding neither is dropped). -/
theorem stockwatch_decoration (ci : SwColMap) (s d : String)
    (rows : List (List String)) (t : SwTrade)
    (ht : t ∈ scrape_stockwatch_rows ci s d rows) :
    t.symbol = pyUpper s ∧ t.date = d
      ∧ (isSomeSome t.price || isSomeSome t.volume) = true := by
  obtain ⟨cells, hcells, hparse⟩ := List.mem_filterMap.mp ht
  unfold parseSwRow at hparse
  split at hparse
  · simp at hparse
  · dsimp only at hparse
    split at hparse
    · rename_i hkeep
      injection hparse with h
      subst h
      exact ⟨rfl, rfl, hkeep⟩
    · simp at hparse

/-- Column map for the C7 witness row: price in column 0, volume in column 1. -/
def swWitnessMap : SwColMap := { price := some 0, volume := some 1 }

/-- The record the witness row parses to. -/
def swWitnessTrade : SwTrade :=
  { price := some (some (mkRat 3 2)), volume := some (some 100),
    symbol := "DOCT", date := "20241115" }

/-- Witness for C7 at a concrete three-cell row. -/
theorem stockwatch_decoration_witness :
    swWitnessTrade.symbol = pyUpper "doct" ∧ swWitnessTrade.date = "20241115"
      ∧ (isSomeSome swWitnessTrade.price || isSomeSome swWitnessTrade.volume) = true :=
  stockwatch_decoration swWitnessMap "doct" "20241115" [["1.50", "100", "x"]]
    swWitnessTrade (by decide)

/-- C8 counterexample: the volume coercion does not parse cells as
NON-NEGATIVE integers — a signed cell parses to a negative volume. -/
theorem cell_coercion_counterexample :
    coerceVolumeCell "-5" = some (-5) ∧ (-5 : ℤ) < 0 := by
  exact ⟨by decide, by decide⟩

/-- Column map for the C8 emission instance. -/
def c8Map : SwColMap := { price := some 0, volume := some 1 }

/-- C8 amended: cell coercion strips `$`, `,`, whitespace (and `+` for change)
and parses price/change as decimals and volume as an integer — the sign is
accepted, so a negative volume string parses to a negative integer rather
than failing; an unparseable cell such as "N/A" yields null, and the row is
still emitted when another kept-field is present. -/
theorem cell_coercion_spec :
    coercePriceCell "$1,234.50" = some (1234.50 : ℚ)
    ∧ coerceChangeCell "+0.02" = some (0.02 : ℚ)
    ∧ coerceVolumeCell "1,000" = some 1000
    ∧ coerceVolumeCell "-5" = some (-5)
    ∧ coercePriceCell "N/A" = none
    ∧ parseSwRow c8Map "doct" "20240101" ["N/A", "1,000", "x"]
        = some { price := some none, volume := some (some 1000),
                 symbol := "DOCT", date := "20240101" } := by
  have e1 : (1234.50 : ℚ) = mkRat 123450 100 := by
    rw [Rat.mkRat_eq_divInt, Rat.divInt_eq_div]; norm_num
  have e2 : (0.02 : ℚ) = mkRat 2 100 := by
    rw [Rat.mkRat_eq_divInt, Rat.divInt_eq_div]; norm_num
  refine ⟨?_, ?_, by decide, by decide, by decide, by decide⟩
  · rw [e1]; decide
  · rw [e2]; decide

/-- The (field, default) pairs of the trade identity tuple
(deduplicate_json.py, lines 17-25). -/
def tradeKeyDefaults : List (String × PyVal) :=
  [("date", .str ""), ("time_et", .str ""), ("exchange", .str ""),
   ("price", .num 0), ("volume", .num 0), ("buyer", .str ""), ("seller", .str "")]

/-- The (field, default) pairs of the depth-chart identity tuple
(deduplicate_json.py, lines 34-44). -/
def depthKeyDefaults : List (String × PyVal) :=
  [("timestamp", .str ""), ("price", .num 0), ("volume", .num 0),
   ("buyer_broker", .str ""), ("seller_broker", .str ""),
   ("bid_price", .num 0), ("ask_price", .num 0),
   ("bid_size", .num 0), ("ask_size", .num 0)]

/-- C9: in the identity keys, a record lacking an identity field is
indistinguishable from the same record carrying that field's default value
(empty string for the text fields, 0 for the numeric fields) — adding the
default explicitly does not change the key — while a field explicitly null
gives a different key than an absent field. -/
theorem key_default_absent :
    (∀ (r : Rec) (k : String) (d : PyVal), (k, d) ∈ tradeKeyDefaults →
        hasKey r k = false → get_trade_key ((k, d) :: r) = get_trade_key r)
    ∧ (∀ r : Rec, hasKey r "volume" = false →
        get_trade_key (("volume", PyVal.null) :: r) ≠ get_trade_key r)
    ∧ (∀ (r : Rec) (k : String) (d : PyVal), (k, d) ∈ depthKeyDefaults →
        hasKey r k = false → get_depth_chart_key ((k, d) :: r) = get_depth_chart_key r) := by
  refine ⟨?_, ?_, ?_⟩
  · intro r k d hmem habs
    simp only [tradeKeyDefaults, List.mem_cons, List.mem_singleton,
      List.not_mem_nil, or_false, Prod.mk.injEq] at hmem
    rcases hmem with hkd | hkd | hkd | hkd | hkd | hkd | hkd <;>
      obtain ⟨rfl, rfl⟩ := hkd <;>
      simp [get_trade_key, pyGet_cons_eq, pyGet_cons_ne, pyGet_of_absent r _ _ habs]
  · intro r habs h
    simp only [get_trade_key, pyGet_cons_eq, pyGet_cons_ne,
      pyGet_of_absent r _ _ habs, List.cons.injEq] at h
    exact PyVal.noConfusion h.2.2.2.2.1
  · intro r k d hmem habs
    simp only [depthKeyDefaults, List.mem_cons, List.mem_singleton,
      List.not_mem_nil, or_false, Prod.mk.injEq] at hmem
    rcases hmem with hkd | hkd | hkd | hkd | hkd | hkd | hkd | hkd | hkd <;>
      obtain ⟨rfl, rfl⟩ := hkd <;>
      simp [get_depth_chart_key, pyGet_cons_eq, pyGet_cons_ne, pyGet_of_absent r _ _ habs]

/-- Witness for C9: a record without a volume key, against explicit volume 0
(same key) and explicit null volume (different key). -/
theorem key_default_absent_witness :
    get_trade_key (("volume", PyVal.num 0) :: [("date", PyVal.str "20240101")])
        = get_trade_key [("date", PyVal.str "20240101")]
    ∧ get_trade_key (("volume", PyVal.null) :: [("date", PyVal.str "20240101")])
        ≠ get_trade_key [("date", PyVal.str "20240101")] :=
  ⟨key_default_absent.1 [("date", PyVal.str "20240101")] "volume" (PyVal.num 0)
      (by decide) (by decide),
   key_default_absent.2.1 [("date", PyVal.str "20240101")] (by decide)⟩
